import Mathlib

/-
  Shallow embedding of robertmeta/speedtest-cli (Go).

  The source is a single Go package.  Numeric conventions of the embedding:
  * `float64` quantities that feed real trigonometry (latitudes, longitudes,
    distances) are modelled as real numbers;
  * `time.Duration` values (int64 nanoseconds, non-negative monotonic-clock
    differences here) are modelled as naturals;
  * byte counts and seconds in the throughput stage are modelled as rationals.
  Concurrency is modelled by explicit arrival orders / schedules: goroutines
  only interact through a single lock-guarded aggregate per stage, so a run is
  determined by the order in which tasks enter the critical section.
-/

namespace Speedtest

/-- From the source: `degToRad = math.Pi / 180`. -/
noncomputable def degToRad : ℝ := Real.pi / 180

/-- From the source: `earthsRadiusKm = 6371`. -/
noncomputable def earthsRadiusKm : ℝ := 6371

/-- From the source: `nanoSecPerMilli = 1000000`. -/
def nanoSecPerMilli : ℕ := 1000000

/-- From the source: `timesToRunLatency = 5`. -/
def timesToRunLatency : ℕ := 5

/-- From the source: `numberOfClosestServers = 5`. -/
def numberOfClosestServers : ℕ := 5

/-- From the source: `duplicateDownloads = 4`. -/
def duplicateDownloads : ℕ := 4

/-- From the source: `bytesPerMegabit = 131072` (used as a rational divisor,
since the Go code performs the division in float64). -/
def bytesPerMegabit : ℚ := 131072

/-- From the source: `downloadSizes = [...]int64{350, ..., 4000}`. -/
def downloadSizes : List ℕ := [350, 500, 750, 1000, 1500, 2000, 2500, 3000, 3500, 4000]

/-- Go struct `Point { Lat, Long float64 }`. -/
structure Point where
  Lat : ℝ
  Long : ℝ

/-- Go struct `Client` (ip, isp strings; lat, lon float64). -/
structure Client where
  Ip : String
  Isp : String
  Lat : ℝ
  Long : ℝ

/-- Go struct `Server`.  `Distance` is computed by `getClosestServers`,
`Ping` by `getBestServer`; both are zero-valued until then.  `Ping` is an
int64 millisecond count that is always non-negative (it is derived from
monotonic-clock durations), modelled as a natural. -/
structure Server where
  Name : String
  Sponsor : String
  Country : String
  Lat : ℝ
  Long : ℝ
  Url : String
  Host : String
  Distance : ℝ
  Ping : ℕ

/-- Go's zero value of `Server` (all fields zero), the default needed by
list head/tail reasoning below. -/
instance : Inhabited Server :=
  ⟨{ Name := "", Sponsor := "", Country := "", Lat := 0, Long := 0,
     Url := "", Host := "", Distance := 0, Ping := 0 }⟩

/-- Go's `math.Atan2(y, x)` on finite inputs: the angle of the vector (x, y),
in (-pi, pi]. -/
noncomputable def atan2 (y x : ℝ) : ℝ :=
  if 0 < x then Real.arctan (y / x)
  else if x < 0 then
    (if 0 ≤ y then Real.arctan (y / x) + Real.pi else Real.arctan (y / x) - Real.pi)
  else if 0 < y then Real.pi / 2
  else if y < 0 then -(Real.pi / 2)
  else 0

/-- The source's `distance(origin, destination Point) float64`, transcribed
term by term.  Note that the second cosine factor in `a` is
`math.Cos(radOriginLat)` again (the origin latitude twice), exactly as in the
Go code. -/
noncomputable def distance (origin destination : Point) : ℝ :=
  let dlat := (destination.Lat - origin.Lat) * degToRad
  let dlon := (destination.Long - origin.Long) * degToRad
  let radOriginLat := origin.Lat * degToRad
  let a := Real.sin (dlat / 2) * Real.sin (dlat / 2) +
    Real.cos radOriginLat * Real.cos radOriginLat * Real.sin (dlon / 2) * Real.sin (dlon / 2)
  let c := 2 * atan2 (Real.sqrt a) (Real.sqrt (1 - a))
  earthsRadiusKm * c

/-!  `getClosestServers`: the Go code stores candidates in
`closestServers := make(map[float64]Server)` — a map keyed by the computed
distance.  We model the map as an association list with unique keys; Go map
iteration order is unspecified, but the two places that iterate it (computing
the largest key, and collecting the values) are order-independent apart from
the output list order, and the claims below only concern the output's size
and membership.  -/

/-- `closestServers[k] = v` on a Go map modelled as a unique-key association
list: replaces the entry for `k` if present, otherwise appends. -/
noncomputable def mapInsert : List (ℝ × Server) → ℝ → Server → List (ℝ × Server)
  | [], k, v => [(k, v)]
  | p :: rest, k, v =>
    if k = p.1 then (k, v) :: rest else p :: mapInsert rest k v

/-- `delete(closestServers, k)` on the association-list model. -/
noncomputable def mapDelete : List (ℝ × Server) → ℝ → List (ℝ × Server)
  | [], _ => []
  | p :: rest, k => if k = p.1 then rest else p :: mapDelete rest k

/-- The source's scan `var highestDistance float64; for k := range closestServers
{ if k > highestDistance { highestDistance = k } }`: the maximum of the keys
and the zero initial value (order-independent). -/
noncomputable def highestKey (m : List (ℝ × Server)) : ℝ :=
  m.foldl (fun h p => if p.1 > h then p.1 else h) 0

/-- One iteration of the `getClosestServers` loop body: compute the candidate's
distance, insert it if the map holds fewer than 5 entries, otherwise replace
the entry with the highest key when the candidate is strictly closer. -/
noncomputable def getClosestStep (client : Point) (m : List (ℝ × Server)) (server : Server) :
    List (ℝ × Server) :=
  let withDist := { server with Distance := distance client ⟨server.Lat, server.Long⟩ }
  if m.length < 5 then mapInsert m withDist.Distance withDist
  else
    let highest := highestKey m
    if withDist.Distance < highest then
      mapInsert (mapDelete m highest) withDist.Distance withDist
    else m

/-- The source's `getClosestServers` on an already-decoded candidate list:
fold the loop body over the candidates, then collect the map's values.
(The network fetch and XML decode that produce the candidate list are
modelled separately with `getConfigRun` below.) -/
noncomputable def getClosestServers (client : Client) (servers : List Server) : List Server :=
  (servers.foldl (getClosestStep ⟨client.Lat, client.Long⟩) []).map Prod.snd

/-- A client whose coordinates coincide with the two test servers below. -/
def clientAtOrigin : Client :=
  { Ip := "203.0.113.5", Isp := "ExampleNet", Lat := 0, Long := 0 }

/-- First of two distinct candidate servers at identical coordinates
(hence identical computed distance). -/
def srvA : Server :=
  { Name := "Alpha", Sponsor := "SponsorA", Country := "AA", Lat := 0, Long := 0,
    Url := "http://a.example/speedtest/upload.php", Host := "a.example:8080",
    Distance := 0, Ping := 0 }

/-- Second of the two equal-distance candidates. -/
def srvB : Server :=
  { Name := "Beta", Sponsor := "SponsorB", Country := "BB", Lat := 0, Long := 0,
    Url := "http://b.example/speedtest/upload.php", Host := "b.example:8080",
    Distance := 0, Ping := 0 }

/-!  C3: the haversine formula.  The source computes
`a := sin(dlat/2)*sin(dlat/2) + cos(radOriginLat)*cos(radOriginLat)*sin(dlon/2)*sin(dlon/2)`
— the origin latitude's cosine twice — where the spec prescribes
`cos(originLat·pi/180) * cos(destLat·pi/180)`.  -/

/-- Modelled from the spec: identical to `distance` except that the cosine
product in `a` is cos(originLat·pi/180)·cos(destLat·pi/180) as the spec's
formula states. -/
noncomputable def distanceSpec (origin destination : Point) : ℝ :=
  let dlat := (destination.Lat - origin.Lat) * degToRad
  let dlon := (destination.Long - origin.Long) * degToRad
  let radOriginLat := origin.Lat * degToRad
  let radDestLat := destination.Lat * degToRad
  let a := Real.sin (dlat / 2) * Real.sin (dlat / 2) +
    Real.cos radOriginLat * Real.cos radDestLat * Real.sin (dlon / 2) * Real.sin (dlon / 2)
  let c := 2 * atan2 (Real.sqrt a) (Real.sqrt (1 - a))
  earthsRadiusKm * c

/-!  The download-URL producer of `downloadSpeed`.  The goroutine mutates
`u.Path` with `re.ReplaceAllString(u.Path, "$1/random<size>x<size>.jpg")`
where `re = (.*)/(.+?)$`, sends `u.String()` for every (size, repetition)
pair, and then closes the channel — modelled as a function returning the
finite list of emitted paths (end of list = channel close).  On a path, the
regex has exactly one match, covering the whole string and splitting it at
the last slash that is followed by at least one character (`(.*)` is greedy
and `(.+?)` must reach `$`); with no such slash there is no match and the
path is left unchanged. -/

/-- Splits a path at the last slash followed by at least one character,
returning (text before that slash, text after it) — the capture groups of
the Go regex `(.*)/(.+?)$` — or none when the regex does not match. -/
def splitSegAux : List Char → Option (List Char × List Char)
  | [] => none
  | c :: cs =>
    match splitSegAux cs with
    | some (pre, seg) => some (c :: pre, seg)
    | none => if c = '/' ∧ cs ≠ [] then some ([], cs) else none

/-- `re.ReplaceAllString(path, "$1/" + seg)`: the single whole-string match
is replaced; an unmatched path is returned unchanged. -/
def replaceSeg (path seg : List Char) : List Char :=
  match splitSegAux path with
  | some (pre, _) => pre ++ '/' :: seg
  | none => path

/-- The literal `"random" + strconv.Itoa(int(size)) + "x" + strconv.Itoa(int(size)) + ".jpg"`. -/
def sizeJpg (n : ℕ) : List Char :=
  ("random" ++ Nat.repr n ++ "x" ++ Nat.repr n ++ ".jpg").data

/-- The inner repetition loop: `for i := 0; i < duplicateDownloads; i++`
mutates the path and emits it; returns the final path and the emitted list. -/
def emitReps (seg : List Char) : ℕ → List Char → List Char × List (List Char)
  | 0, path => (path, [])
  | k + 1, path =>
    let p2 := replaceSeg path seg
    let done := emitReps seg k p2
    (done.1, p2 :: done.2)

/-- The outer loop over `downloadSizes`, threading the mutated path. -/
def producerLoop : List ℕ → List Char → List (List Char)
  | [], _ => []
  | n :: rest, path =>
    let r := emitReps (sizeJpg n) duplicateDownloads path
    r.2 ++ producerLoop rest r.1

/-- All paths emitted on the channel by the producer goroutine, in order,
starting from the server URL's path. -/
def producerPaths (path : List Char) : List (List Char) :=
  producerLoop downloadSizes path

/-!  The consumer pool of `downloadSpeed`.  Six workers pull URLs from the
producer's channel; each does `b, d, _ := fetchHttp(url)` and then, under
`totalBytesLock`, `totalBytes += float64(len(b)); totalDur += d`.  A fetch
error is discarded: the body is nil (length 0) and the returned duration is
`time.Since(time.Now())`, the elapsed time between two adjacent clock reads,
modelled as zero.  `totalBytes` and `totalDur` start at `0.0` and
`time.Since(time.Now())` respectively, i.e. at zero.  Byte counts and
durations (in seconds, as produced by `totalDur.Seconds()`) are modelled as
rationals. -/

/-- One worker loop iteration on `url`: add the fetched byte count and
elapsed seconds to the shared aggregate (`none` = failed fetch: nil body,
zero duration). -/
def consumeStep (fetch : String → Option (ℚ × ℚ)) (acc : ℚ × ℚ) (url : String) : ℚ × ℚ :=
  match fetch url with
  | some bd => (acc.1 + bd.1, acc.2 + bd.2)
  | none => (acc.1 + 0, acc.2 + 0)

/-- The shared (totalBytes, totalDur) pair after all workers have drained the
channel and the `wg.Wait()` barrier has passed.  `sched` lists the URLs each
worker consumed, in its consumption order.  The lock serialises every
read-add-write, and addition is commutative and associative, so the grand
total of any interleaving equals this worker-by-worker fold. -/
def runWorkers (fetch : String → Option (ℚ × ℚ)) (sched : List (List String)) : ℚ × ℚ :=
  sched.foldl (fun acc urls => urls.foldl (consumeStep fetch) acc) (0, 0)

/-- The tail of `downloadSpeed`: `bytesPerSecond := totalBytes / totalDur.Seconds();
megaBitsPerSecond := bytesPerSecond / bytesPerMegabit`. -/
def downloadSpeedResult (fetch : String → Option (ℚ × ℚ)) (sched : List (List String)) : ℚ :=
  ((runWorkers fetch sched).1 / (runWorkers fetch sched).2) / bytesPerMegabit

/-- Grand sum of bytes over the successful downloads of a URL list. -/
def totalBytesOf (fetch : String → Option (ℚ × ℚ)) (urls : List String) : ℚ :=
  ((urls.filterMap fetch).map Prod.fst).sum

/-- Grand sum of elapsed seconds over the successful downloads of a URL list. -/
def totalSecondsOf (fetch : String → Option (ℚ × ℚ)) (urls : List String) : ℚ :=
  ((urls.filterMap fetch).map Prod.snd).sum

/-- A fetcher that fails on the URL "bad" and succeeds elsewhere. -/
def fetchFlaky : String → Option (ℚ × ℚ) :=
  fun s => if s = "bad" then none else some (100, 1)

/-!  `getBestServer`: one goroutine per candidate.  Each task parses the
server URL, probes `/latency.txt` up to `timesToRunLatency` times — on a
probe error it prints a message and BREAKS out of the probe loop — sums the
successful durations into `totalDur` (initialised to
`time.Since(time.Now())`, i.e. zero), computes
`server.Ping = durationToMilliSeconds(totalDur) / timesToRunLatency` on its
own by-value copy of the server, and then, under `bestServerLock`, replaces
the shared best on the first result or on a strictly smaller ping.  A task is
determined by its probe outcomes, so a run is determined by the order in
which tasks enter the lock. -/

/-- The probe loop of one latency task over the planned probe indices:
`none` = probe error (print and break, skipping the remaining iterations);
`some d` = success taking d nanoseconds, added to the running total. -/
def probeRun (fetch : ℕ → Option ℕ) : List ℕ → ℕ → ℕ
  | [], total => total
  | i :: rest, total =>
    match fetch i with
    | none => total
    | some d => probeRun fetch rest (total + d)

/-- Total nanoseconds accumulated by the 5-iteration probe loop. -/
def probeTotalDur (fetch : ℕ → Option ℕ) : ℕ :=
  probeRun fetch (List.range timesToRunLatency) 0

/-- The source's `durationToMilliSeconds`: nanoseconds divided by 1e6
(int64 division truncating toward zero; all durations here are
non-negative, so this is floor division on naturals). -/
def durationToMilliSeconds (ns : ℕ) : ℕ := ns / nanoSecPerMilli

/-- The recorded mean: `server.Ping = durationToMilliSeconds(totalDur) / timesToRunLatency`. -/
def pingOf (fetch : ℕ → Option ℕ) : ℕ :=
  durationToMilliSeconds (probeTotalDur fetch) / timesToRunLatency

/-- The durations the task successfully measured: the probes run in order
and the loop stops at the first failure, so these are exactly the successes
preceding the first failure. -/
def successDurations (fetch : ℕ → Option ℕ) : List ℕ :=
  (((List.range timesToRunLatency).map fetch).takeWhile Option.isSome).filterMap id

/-- The mutable state of a `getBestServer` run: the input slice's backing
array and the shared `bestServer` slot (`none` = `firstPass` still true). -/
structure BestState where
  slice : List Server
  best : Option Server

/-- The goroutine's by-value copy with its measured ping written into it:
`go func(server Server)` copies the element and `server.Ping = ...` writes
the copy's field.  `lat i` gives the probe outcomes against server i. -/
def measureServer (lat : ℕ → ℕ → Option ℕ) (i : ℕ) (sv : Server) : Server :=
  { sv with Ping := pingOf (lat i) }

/-- The lock-guarded update: `if firstPass || server.Ping < bestServer.Ping
{ firstPass = false; bestServer = server }`. -/
def recordResult (best : Option Server) (sv : Server) : Option Server :=
  match best with
  | none => some sv
  | some b => if sv.Ping < b.Ping then some sv else some b

/-- Task i entering the critical section: it holds its measured by-value
copy of slice element i; only the shared best slot is written. -/
def probeTask (lat : ℕ → ℕ → Option ℕ) (st : BestState) (i : ℕ) : BestState :=
  match st.slice[i]? with
  | none => st
  | some sv => { st with best := recordResult st.best (measureServer lat i sv) }

/-- A complete `getBestServer` run: the spawned tasks enter the lock in
`order` (a permutation of the slice indices); the fold's end is the
`wg.Wait()` barrier. -/
def getBestServerRun (lat : ℕ → ℕ → Option ℕ) (servers : List Server)
    (order : List ℕ) : BestState :=
  order.foldl (probeTask lat) ⟨servers, none⟩

/-- The measured server copies in lock-arrival order. -/
def arrivalSeq (lat : ℕ → ℕ → Option ℕ) (servers : List Server)
    (order : List ℕ) : List Server :=
  order.filterMap (fun i => (servers[i]?).map (measureServer lat i))

/-- The fold the shared best slot performs over any server sequence. -/
def selectBest (l : List Server) : Option Server :=
  l.foldl recordResult none

/-- All measured candidates (one per input server, in input order). -/
def measuredServers (lat : ℕ → ℕ → Option ℕ) (servers : List Server) : List Server :=
  (List.range servers.length).filterMap (fun i => (servers[i]?).map (measureServer lat i))

/-- Probe outcomes for the C5/C10 witnesses: server i answers every probe
in (i+1)·10^7 nanoseconds. -/
def latW : ℕ → ℕ → Option ℕ :=
  fun i _ => some ((i + 1) * 10000000)

/-!  `getConfig` and the fatal-error policy.  In the source a failed fetch
is passed to `log.Fatal` (message plus non-zero exit), but the error result
of `xml.Unmarshal(configXml, &config)` is discarded: the function returns
the decoded-or-zero-valued record either way, and `main` carries on into
`getClient`/`getClosestServers` with it.  -/

/-- Outcome of a step of `main`: `fatal` is `log.Fatal` (message, non-zero
exit); `next` continues the run with the produced value. -/
inductive RunOutcome (α : Type) where
  | fatal : String → RunOutcome α
  | next : α → RunOutcome α

/-- What `xml.Unmarshal(body, &v)` hands back: the (possibly zero-valued or
partially filled) target plus the error return value. -/
structure Unmarshalled (α : Type) where
  value : α
  err : Option String

/-- Go struct `Config`, restricted to the fields the program reads
(`Clients`; `LicenseKey` kept as the only other scalar field). -/
structure Config where
  LicenseKey : String
  Clients : List Client

/-- The source's `getConfig` after the print: `log.Fatal` on a fetch error,
then `xml.Unmarshal(configXml, &config)` with the error discarded, then
`return config`. -/
def getConfigRun (fetchRes : Except String String)
    (unmarshal : String → Unmarshalled Config) : RunOutcome Config :=
  match fetchRes with
  | Except.error e => RunOutcome.fatal e
  | Except.ok body => RunOutcome.next (unmarshal body).value

/-- The zero value of `Config`, which a failed decode leaves behind. -/
def zeroConfig : Config :=
  { LicenseKey := "", Clients := [] }

/-- Modelled from the Go standard library contract on a body that is not
well-formed XML: `xml.Unmarshal` returns a syntax error and the target
keeps its zero value. -/
def unmarshalGarbage : String → Unmarshalled Config :=
  fun _ => { value := zeroConfig, err := some "XML syntax error" }

theorem atan2_zero_one : atan2 0 1 = 0 := by
  simp [atan2]

theorem distance_self (p : Point) : distance p p = 0 := by
  simp [distance, atan2_zero_one]

theorem closest_two_equal_eval :
    getClosestServers clientAtOrigin [srvA, srvB] = [{ srvB with Distance := 0 }] := by
  have hA : distance ⟨clientAtOrigin.Lat, clientAtOrigin.Long⟩ ⟨srvA.Lat, srvA.Long⟩ = 0 := by
    have : (⟨srvA.Lat, srvA.Long⟩ : Point) = ⟨clientAtOrigin.Lat, clientAtOrigin.Long⟩ := by
      simp [srvA, clientAtOrigin]
    rw [this, distance_self]
  have hB : distance ⟨clientAtOrigin.Lat, clientAtOrigin.Long⟩ ⟨srvB.Lat, srvB.Long⟩ = 0 := by
    have : (⟨srvB.Lat, srvB.Long⟩ : Point) = ⟨clientAtOrigin.Lat, clientAtOrigin.Long⟩ := by
      simp [srvB, clientAtOrigin]
    rw [this, distance_self]
  simp [getClosestServers, getClosestStep, hA, hB, mapInsert]

/-- C1: the claim states that two distinct servers with equal computed
distance are both retained while fewer than 5 servers are held.  The code
keys the retained set by the distance value (`map[float64]Server`), so the
second equal-distance candidate overwrites the first: of the two distinct
candidates `srvA`, `srvB` (both at the client's coordinates, distance 0),
only `Beta` survives even though capacity (5) is far from reached. -/
theorem c1_equal_distance_server_dropped :
    (getClosestServers clientAtOrigin [srvA, srvB]).map Server.Name = ["Beta"] ∧
      srvA.Name ≠ srvB.Name ∧ [srvA, srvB].length < 5 := by
  refine ⟨?_, by simp [srvA, srvB], by simp⟩
  rw [closest_two_equal_eval]
  simp [srvB]

/-- C2: the claim states the output size is exactly min(5, n).  On the
two-candidate list with equal computed distances the code returns a single
server: size 1, while min(5, 2) = 2. -/
theorem c2_output_size_not_min :
    (getClosestServers clientAtOrigin [srvA, srvB]).length = 1 ∧
      min numberOfClosestServers [srvA, srvB].length = 2 := by
  constructor
  · rw [closest_two_equal_eval]
    rfl
  · simp [numberOfClosestServers]

theorem distance_origin_6090 :
    distance ⟨0, 0⟩ ⟨60, 90⟩ = earthsRadiusKm * (2 * Real.arctan (Real.sqrt 3)) := by
  have h6 : Real.sin (60 * degToRad / 2) = 1 / 2 := by
    rw [show (60:ℝ) * degToRad / 2 = Real.pi / 6 by rw [degToRad]; ring, Real.sin_pi_div_six]
  have h4 : Real.sin (90 * degToRad / 2) = Real.sqrt 2 / 2 := by
    rw [show (90:ℝ) * degToRad / 2 = Real.pi / 4 by rw [degToRad]; ring, Real.sin_pi_div_four]
  have hs2 : Real.sqrt 2 * Real.sqrt 2 = 2 := Real.mul_self_sqrt (by norm_num)
  simp only [distance]
  norm_num [h6, h4, div_mul_div_comm, hs2]
  left
  rw [show Real.sqrt 4 = 2 by
    rw [show (4:ℝ) = 2 ^ 2 by norm_num, Real.sqrt_sq (by norm_num : (0:ℝ) ≤ 2)]]
  rw [atan2, if_pos (by norm_num : (0:ℝ) < 2⁻¹)]
  norm_num
  congr 1
  ring

theorem distance_6090_origin :
    distance ⟨60, 90⟩ ⟨0, 0⟩ = earthsRadiusKm * (2 * Real.arctan (Real.sqrt 3 / Real.sqrt 5)) := by
  have h6 : Real.sin (-(60 * degToRad) / 2) = -(1 / 2) := by
    rw [show -((60:ℝ) * degToRad) / 2 = -(Real.pi / 6) by rw [degToRad]; ring,
      Real.sin_neg, Real.sin_pi_div_six]
  have h4 : Real.sin (-(90 * degToRad) / 2) = -(Real.sqrt 2 / 2) := by
    rw [show -((90:ℝ) * degToRad) / 2 = -(Real.pi / 4) by rw [degToRad]; ring,
      Real.sin_neg, Real.sin_pi_div_four]
  have h3 : Real.cos (60 * degToRad) = 1 / 2 := by
    rw [show (60:ℝ) * degToRad = Real.pi / 3 by rw [degToRad]; ring, Real.cos_pi_div_three]
  have hs2 : Real.sqrt 2 * Real.sqrt 2 = 2 := Real.mul_self_sqrt (by norm_num)
  simp only [distance]
  norm_num [h6, h4, h3, div_mul_div_comm, hs2]
  left
  rw [atan2, if_pos (div_pos (Real.sqrt_pos.mpr (by norm_num : (0:ℝ) < 5))
    (Real.sqrt_pos.mpr (by norm_num : (0:ℝ) < 8)))]
  congr 1
  have h8 : Real.sqrt 8 ≠ 0 := ne_of_gt (Real.sqrt_pos.mpr (by norm_num))
  field_simp

theorem distanceSpec_6090_origin :
    distanceSpec ⟨60, 90⟩ ⟨0, 0⟩ = earthsRadiusKm * (2 * Real.arctan 1) := by
  have h6 : Real.sin (-(60 * degToRad) / 2) = -(1 / 2) := by
    rw [show -((60:ℝ) * degToRad) / 2 = -(Real.pi / 6) by rw [degToRad]; ring,
      Real.sin_neg, Real.sin_pi_div_six]
  have h4 : Real.sin (-(90 * degToRad) / 2) = -(Real.sqrt 2 / 2) := by
    rw [show -((90:ℝ) * degToRad) / 2 = -(Real.pi / 4) by rw [degToRad]; ring,
      Real.sin_neg, Real.sin_pi_div_four]
  have h3 : Real.cos (60 * degToRad) = 1 / 2 := by
    rw [show (60:ℝ) * degToRad = Real.pi / 3 by rw [degToRad]; ring, Real.cos_pi_div_three]
  have hs2 : Real.sqrt 2 * Real.sqrt 2 = 2 := Real.mul_self_sqrt (by norm_num)
  simp only [distanceSpec]
  norm_num [h6, h4, h3, div_mul_div_comm, hs2]
  left
  rw [atan2, if_pos (by positivity : (0:ℝ) < (Real.sqrt 2)⁻¹)]
  rw [div_self (by positivity : ((Real.sqrt 2)⁻¹ : ℝ) ≠ 0), Real.arctan_one]

/-- C3: the claim asserts the code computes the haversine formula with
cos(originLat·pi/180)·cos(destLat·pi/180), and in particular that
distance(A,B) = distance(B,A).  At A = (0,0), B = (60,90) the code's
`distance` (whose cosine product is cos(originLat) squared) is asymmetric,
and it also differs from the spec's formula `distanceSpec` at (B,A). -/
theorem c3_distance_asymmetric_eval :
    distance ⟨0, 0⟩ ⟨60, 90⟩ ≠ distance ⟨60, 90⟩ ⟨0, 0⟩ ∧
      distance ⟨60, 90⟩ ⟨0, 0⟩ ≠ distanceSpec ⟨60, 90⟩ ⟨0, 0⟩ := by
  have hR : (0:ℝ) < earthsRadiusKm := by rw [earthsRadiusKm]; norm_num
  have hq : Real.sqrt 3 / Real.sqrt 5 = Real.sqrt (3 / 5) := by
    rw [Real.sqrt_div (by norm_num : (0:ℝ) ≤ 3) 5]
  have h1 : Real.arctan (Real.sqrt 3 / Real.sqrt 5) < Real.arctan (Real.sqrt 3) := by
    rw [hq]
    exact Real.arctan_strictMono (Real.sqrt_lt_sqrt (by norm_num) (by norm_num))
  have h2 : Real.arctan (Real.sqrt 3 / Real.sqrt 5) < Real.arctan 1 := by
    rw [hq]
    refine Real.arctan_strictMono (lt_of_lt_of_le
      (Real.sqrt_lt_sqrt (by norm_num) (by norm_num : (3:ℝ)/5 < 1)) (le_of_eq Real.sqrt_one))
  constructor
  · rw [distance_origin_6090, distance_6090_origin]
    exact ne_of_gt (mul_lt_mul_of_pos_left
      (mul_lt_mul_of_pos_left h1 (by norm_num : (0:ℝ) < 2)) hR)
  · rw [distance_6090_origin, distanceSpec_6090_origin]
    exact ne_of_lt (mul_lt_mul_of_pos_left
      (mul_lt_mul_of_pos_left h2 (by norm_num : (0:ℝ) < 2)) hR)

theorem splitSegAux_no_slash (l : List Char) (h : '/' ∉ l) : splitSegAux l = none := by
  induction l with
  | nil => rfl
  | cons c cs ih =>
    have hc : c ≠ '/' := fun hc => h (hc ▸ List.mem_cons_self c cs)
    have hcs : '/' ∉ cs := fun hm => h (List.mem_cons_of_mem c hm)
    simp only [splitSegAux, ih hcs]
    rw [if_neg]
    exact fun hx => hc hx.1

theorem splitSegAux_append (pre seg : List Char) (h1 : seg ≠ []) (h2 : '/' ∉ seg) :
    splitSegAux (pre ++ '/' :: seg) = some (pre, seg) := by
  induction pre with
  | nil => simp [splitSegAux, splitSegAux_no_slash seg h2, h1]
  | cons c cs ih => simp [splitSegAux, ih]

theorem replaceSeg_of_split (path seg pre s : List Char)
    (h : splitSegAux path = some (pre, s)) : replaceSeg path seg = pre ++ '/' :: seg := by
  simp [replaceSeg, h]

theorem emitReps_fixed (seg pre : List Char) (h1 : seg ≠ []) (h2 : '/' ∉ seg) :
    ∀ k, emitReps seg k (pre ++ '/' :: seg) =
      (pre ++ '/' :: seg, List.replicate k (pre ++ '/' :: seg)) := by
  intro k
  induction k with
  | zero => rfl
  | succ k ih =>
    simp [emitReps, replaceSeg_of_split _ _ _ _ (splitSegAux_append pre seg h1 h2), ih,
      List.replicate_succ]

theorem emitReps_eval (seg path pre s : List Char) (h : splitSegAux path = some (pre, s))
    (h1 : seg ≠ []) (h2 : '/' ∉ seg) (k : ℕ) (hk : 0 < k) :
    emitReps seg k path = (pre ++ '/' :: seg, List.replicate k (pre ++ '/' :: seg)) := by
  cases k with
  | zero => exact absurd hk (by simp)
  | succ k =>
    simp [emitReps, replaceSeg_of_split _ _ _ _ h, emitReps_fixed seg pre h1 h2 k,
      List.replicate_succ]

theorem producerLoop_eval (sizes : List ℕ) :
    ∀ path pre s, splitSegAux path = some (pre, s) →
    (∀ n ∈ sizes, sizeJpg n ≠ [] ∧ '/' ∉ sizeJpg n) →
    producerLoop sizes path =
      sizes.flatMap (fun n => List.replicate duplicateDownloads (pre ++ '/' :: sizeJpg n)) := by
  induction sizes with
  | nil => intro path pre s _ _; rfl
  | cons n rest ih =>
    intro path pre s h hall
    have hn := hall n (List.mem_cons_self n rest)
    have hrest : ∀ m ∈ rest, sizeJpg m ≠ [] ∧ '/' ∉ sizeJpg m :=
      fun m hm => hall m (List.mem_cons_of_mem n hm)
    have he := emitReps_eval (sizeJpg n) path pre s h hn.1 hn.2 duplicateDownloads
      (by simp [duplicateDownloads])
    simp only [producerLoop, he, List.flatMap_cons]
    rw [ih (pre ++ '/' :: sizeJpg n) pre (sizeJpg n)
      (splitSegAux_append pre (sizeJpg n) hn.1 hn.2) hrest]

theorem downloadSizes_jpg_wf : ∀ n ∈ downloadSizes, sizeJpg n ≠ [] ∧ '/' ∉ sizeJpg n := by
  decide

/-- C7: whenever the server URL's path matches the substitution regex
(splitting as prefix/segment), the producer emits exactly one path per
(size, repetition) pair — the 10 sizes of `downloadSizes` in their given
ascending order, each repeated `duplicateDownloads` = 4 consecutive times,
40 paths in total, each of the square-image form
prefix + /random<size>x<size>.jpg — and the emitted list is finite (the
channel is closed after the last URL). -/
theorem c7_producer_emits_40_urls (path pre s : List Char)
    (h : splitSegAux path = some (pre, s)) :
    producerPaths path =
        downloadSizes.flatMap (fun n => List.replicate duplicateDownloads (pre ++ '/' :: sizeJpg n)) ∧
      (producerPaths path).length = 40 ∧ List.Chain' (· < ·) downloadSizes := by
  have hmain := producerLoop_eval downloadSizes path pre s h downloadSizes_jpg_wf
  refine ⟨hmain, ?_, by norm_num [downloadSizes, List.chain'_cons]⟩
  rw [producerPaths, hmain]
  simp [downloadSizes, duplicateDownloads]

/-- C7 witness: the real server paths look like `/speedtest/upload.php`,
which the regex splits as `/speedtest` and `upload.php`. -/
theorem c7_witness :
    producerPaths ("/speedtest/upload.php").data =
        downloadSizes.flatMap
          (fun n => List.replicate duplicateDownloads (("/speedtest").data ++ '/' :: sizeJpg n)) ∧
      (producerPaths ("/speedtest/upload.php").data).length = 40 ∧
      List.Chain' (· < ·) downloadSizes :=
  c7_producer_emits_40_urls ("/speedtest/upload.php").data ("/speedtest").data
    ("upload.php").data (by decide)

theorem consume_foldl (fetch : String → Option (ℚ × ℚ)) (urls : List String) :
    ∀ acc : ℚ × ℚ, urls.foldl (consumeStep fetch) acc =
      (acc.1 + totalBytesOf fetch urls, acc.2 + totalSecondsOf fetch urls) := by
  induction urls with
  | nil => intro acc; simp [totalBytesOf, totalSecondsOf]
  | cons u us ih =>
    intro acc
    cases h : fetch u with
    | none =>
      simp [List.foldl_cons, consumeStep, h, ih, totalBytesOf, totalSecondsOf,
        List.filterMap_cons]
    | some bd =>
      simp [List.foldl_cons, consumeStep, h, ih, totalBytesOf, totalSecondsOf,
        List.filterMap_cons, add_assoc]

theorem runWorkers_eq (fetch : String → Option (ℚ × ℚ)) (sched : List (List String)) :
    runWorkers fetch sched =
      (totalBytesOf fetch sched.flatten, totalSecondsOf fetch sched.flatten) := by
  have key : ∀ (s : List (List String)) (acc : ℚ × ℚ),
      s.foldl (fun a urls => urls.foldl (consumeStep fetch) a) acc =
        (acc.1 + totalBytesOf fetch s.flatten, acc.2 + totalSecondsOf fetch s.flatten) := by
    intro s
    induction s with
    | nil => intro acc; simp [totalBytesOf, totalSecondsOf]
    | cons l ls ih =>
      intro acc
      rw [List.foldl_cons, consume_foldl, ih, List.flatten_cons]
      have hb : totalBytesOf fetch (l ++ ls.flatten) =
          totalBytesOf fetch l + totalBytesOf fetch ls.flatten := by
        simp [totalBytesOf, List.filterMap_append]
      have hs : totalSecondsOf fetch (l ++ ls.flatten) =
          totalSecondsOf fetch l + totalSecondsOf fetch ls.flatten := by
        simp [totalSecondsOf, List.filterMap_append]
      rw [hb, hs]
      simp [add_assoc]
  rw [runWorkers, key]
  simp

theorem totalBytesOf_perm (fetch : String → Option (ℚ × ℚ)) {u v : List String}
    (h : u.Perm v) : totalBytesOf fetch u = totalBytesOf fetch v :=
  ((h.filterMap fetch).map Prod.fst).sum_eq

theorem totalSecondsOf_perm (fetch : String → Option (ℚ × ℚ)) {u v : List String}
    (h : u.Perm v) : totalSecondsOf fetch u = totalSecondsOf fetch v :=
  ((h.filterMap fetch).map Prod.snd).sum_eq

/-- C4: after the join barrier, `downloadSpeed` returns
(totalBytes / totalSeconds) / 131072 where the totals are the grand sums over
all successful downloads of all workers, for any assignment of the URLs to
workers; and for a fetcher returning exactly N bytes after D seconds on every
one of the 40 requests, the result is ((40·N)/(40·D))/131072 — independent of
how many workers the 40 requests were spread across. -/
theorem c4_downloadSpeed_grand_sums (fetch : String → Option (ℚ × ℚ))
    (sched : List (List String)) (urls : List String) (N D : ℚ)
    (hperm : sched.flatten.Perm urls) :
    downloadSpeedResult fetch sched =
        (totalBytesOf fetch urls / totalSecondsOf fetch urls) / bytesPerMegabit ∧
      (0 < D → urls.length = 40 → fetch = (fun _ => some (N, D)) →
        downloadSpeedResult fetch sched = ((40 * N) / (40 * D)) / bytesPerMegabit) := by
  have hmain : downloadSpeedResult fetch sched =
      (totalBytesOf fetch urls / totalSecondsOf fetch urls) / bytesPerMegabit := by
    rw [downloadSpeedResult, runWorkers_eq, totalBytesOf_perm fetch hperm,
      totalSecondsOf_perm fetch hperm]
  refine ⟨hmain, fun _ hlen hf => ?_⟩
  subst hf
  rw [hmain]
  have hconst : urls.filterMap (fun _ => some (N, D)) = urls.map (fun _ => (N, D)) := by
    rw [show (fun _ : String => some (N, D)) = some ∘ (fun _ : String => (N, D)) from rfl,
      List.filterMap_eq_map]
  have hB : totalBytesOf (fun _ => some (N, D)) urls = 40 * N := by
    rw [totalBytesOf, hconst]
    simp only [List.map_map]
    rw [show (Prod.fst ∘ fun _ : String => (N, D)) = (fun _ : String => N) from rfl,
      List.map_const', List.sum_replicate, hlen]
    rw [nsmul_eq_mul]
    norm_num
  have hS : totalSecondsOf (fun _ => some (N, D)) urls = 40 * D := by
    rw [totalSecondsOf, hconst]
    simp only [List.map_map]
    rw [show (Prod.snd ∘ fun _ : String => (N, D)) = (fun _ : String => D) from rfl,
      List.map_const', List.sum_replicate, hlen]
    rw [nsmul_eq_mul]
    norm_num
  rw [hB, hS]

/-- C4 witness: one worker carrying all 40 requests of a fetcher that always
returns 1000000 bytes after 0.1 seconds. -/
theorem c4_witness :
    downloadSpeedResult (fun _ => some (1000000, 1 / 10)) [List.replicate 40 "url"] =
      ((40 * 1000000) / (40 * (1 / 10))) / bytesPerMegabit :=
  (c4_downloadSpeed_grand_sums (fun _ => some (1000000, 1 / 10)) [List.replicate 40 "url"]
    (List.replicate 40 "url") 1000000 (1 / 10) (by simp)).2 (by norm_num) (by simp) rfl

/-- C9: a download whose fetch fails contributes nothing to the shared
aggregate — the lock-guarded update leaves (totalBytes, totalDur) unchanged —
and the worker's loop goes on to the remaining URLs without retrying it: the
final fold equals the fold with the failed URL absent. -/
theorem c9_failed_download_contributes_nothing (fetch : String → Option (ℚ × ℚ))
    (u : String) (hu : fetch u = none) (acc : ℚ × ℚ) (us vs : List String) :
    consumeStep fetch acc u = acc ∧
      (us ++ u :: vs).foldl (consumeStep fetch) acc =
        (us ++ vs).foldl (consumeStep fetch) acc := by
  have hstep : ∀ a : ℚ × ℚ, consumeStep fetch a u = a := by
    intro a
    simp [consumeStep, hu]
  refine ⟨hstep acc, ?_⟩
  rw [List.foldl_append, List.foldl_append, List.foldl_cons, hstep]

/-- C9 witness: the failed "bad" request in the middle of a worker's URLs
leaves the aggregate exactly as if it were never scheduled. -/
theorem c9_witness :
    consumeStep fetchFlaky (5, 7) "bad" = (5, 7) ∧
      (["a"] ++ "bad" :: ["b"]).foldl (consumeStep fetchFlaky) (5, 7) =
        (["a"] ++ ["b"]).foldl (consumeStep fetchFlaky) (5, 7) :=
  c9_failed_download_contributes_nothing fetchFlaky "bad" rfl (5, 7) ["a"] ["b"]

theorem probeRun_eq (fetch : ℕ → Option ℕ) :
    ∀ (l : List ℕ) (t : ℕ),
      probeRun fetch l t = t + (((l.map fetch).takeWhile Option.isSome).filterMap id).sum := by
  intro l
  induction l with
  | nil => intro t; simp [probeRun]
  | cons i rest ih =>
    intro t
    cases h : fetch i with
    | none => simp [probeRun, h, List.takeWhile_cons]
    | some d => simp [probeRun, h, ih, List.takeWhile_cons, List.filterMap_cons, add_assoc]

/-- C6: the mean latency a task records equals the sum of the successfully
measured probe durations, converted to whole milliseconds (truncating
division by 10^6) and then integer-divided by the fixed probe count 5 —
failed probes contribute zero duration and never shrink the denominator. -/
theorem c6_ping_fixed_denominator (fetch : ℕ → Option ℕ) :
    pingOf fetch = ((successDurations fetch).sum / nanoSecPerMilli) / timesToRunLatency := by
  rw [pingOf, probeTotalDur, durationToMilliSeconds, probeRun_eq, successDurations]
  simp

theorem bestRun_slice_eq (lat : ℕ → ℕ → Option ℕ) (order : List ℕ) :
    ∀ st : BestState, (order.foldl (probeTask lat) st).slice = st.slice := by
  induction order with
  | nil => intro st; rfl
  | cons i rest ih =>
    intro st
    rw [List.foldl_cons, ih]
    cases h : st.slice[i]? with
    | none => simp [probeTask, h]
    | some sv => simp [probeTask, h]

theorem bestRun_best_eq (lat : ℕ → ℕ → Option ℕ) (order : List ℕ) :
    ∀ st : BestState,
      (order.foldl (probeTask lat) st).best =
        (order.filterMap (fun i => (st.slice[i]?).map (measureServer lat i))).foldl
          recordResult st.best := by
  induction order with
  | nil => intro st; rfl
  | cons i rest ih =>
    intro st
    rw [List.foldl_cons]
    cases h : st.slice[i]? with
    | none => simp [probeTask, h, List.filterMap_cons, ih]
    | some sv =>
      have hstep : probeTask lat st i =
          { st with best := recordResult st.best (measureServer lat i sv) } := by
        simp [probeTask, h]
      rw [hstep, ih]
      simp [List.filterMap_cons, h]

theorem selectBest_first_min (l : List Server) :
    ∀ b0 : Server,
      ∃ r pre post, l.foldl recordResult (some b0) = some r ∧
        b0 :: l = pre ++ r :: post ∧ (∀ s ∈ pre, r.Ping < s.Ping) ∧
        (∀ s ∈ b0 :: l, r.Ping ≤ s.Ping) := by
  induction l with
  | nil =>
    intro b0
    exact ⟨b0, [], [], rfl, rfl, by simp, by simp⟩
  | cons x rest ih =>
    intro b0
    by_cases hx : x.Ping < b0.Ping
    · obtain ⟨r, pre, post, h1, h2, h3, h4⟩ := ih x
      have hrx : r.Ping ≤ x.Ping := h4 x (List.mem_cons_self x rest)
      refine ⟨r, b0 :: pre, post, ?_, ?_, ?_, ?_⟩
      · rw [List.foldl_cons, show recordResult (some b0) x = some x by
          simp [recordResult, hx]]
        exact h1
      · rw [List.cons_append]
        exact congrArg (b0 :: ·) h2
      · intro s hs
        rcases List.mem_cons.mp hs with hsb | hsp
        · exact hsb ▸ lt_of_le_of_lt hrx hx
        · exact h3 s hsp
      · intro s hs
        rcases List.mem_cons.mp hs with hsb | hsl
        · exact hsb ▸ le_of_lt (lt_of_le_of_lt hrx hx)
        · exact h4 s hsl
    · obtain ⟨r, pre, post, h1, h2, h3, h4⟩ := ih b0
      have hfold : (x :: rest).foldl recordResult (some b0) =
          rest.foldl recordResult (some b0) := by
        rw [List.foldl_cons, show recordResult (some b0) x = some b0 by
          simp [recordResult, hx]]
      have hbx : b0.Ping ≤ x.Ping := le_of_not_lt hx
      cases pre with
      | nil =>
        have hr : r = b0 := by
          have := congrArg (fun l => l.headI) h2
          simpa using this.symm
        have hpost : post = rest := by
          have := congrArg List.tail h2
          simpa [hr] using this.symm
        refine ⟨r, [], x :: post, by rw [hfold]; exact h1, by simp [hr, hpost], by simp, ?_⟩
        intro s hs
        rcases List.mem_cons.mp hs with hsb | hsl
        · exact hsb ▸ h4 b0 (List.mem_cons_self b0 rest)
        · rcases List.mem_cons.mp hsl with hsx | hsr
          · exact hsx ▸ (hr ▸ hbx)
          · exact h4 s (List.mem_cons_of_mem b0 hsr)
      | cons p0 pre2 =>
        have hp0 : p0 = b0 := by
          have := congrArg (fun l => l.headI) h2
          simpa using this.symm
        have hrest : rest = pre2 ++ r :: post := by
          have := congrArg List.tail h2
          simpa using this
        have hrb : r.Ping < b0.Ping := hp0 ▸ h3 p0 (List.mem_cons_self p0 pre2)
        refine ⟨r, b0 :: x :: pre2, post, by rw [hfold]; exact h1, ?_, ?_, ?_⟩
        · simp [hrest]
        · intro s hs
          rcases List.mem_cons.mp hs with hsb | hs2
          · exact hsb ▸ hrb
          · rcases List.mem_cons.mp hs2 with hsx | hsp
            · exact hsx ▸ lt_of_lt_of_le hrb hbx
            · exact h3 s (List.mem_cons_of_mem p0 hsp)
        · intro s hs
          rcases List.mem_cons.mp hs with hsb | hs2
          · exact hsb ▸ h4 b0 (List.mem_cons_self b0 rest)
          · rcases List.mem_cons.mp hs2 with hsx | hsr
            · exact hsx ▸ le_of_lt (lt_of_lt_of_le hrb hbx)
            · exact h4 s (List.mem_cons_of_mem b0 hsr)

theorem selectBest_spec (l : List Server) (h : l ≠ []) :
    ∃ r pre post, selectBest l = some r ∧ l = pre ++ r :: post ∧
      (∀ s ∈ pre, r.Ping < s.Ping) ∧ (∀ s ∈ l, r.Ping ≤ s.Ping) := by
  cases l with
  | nil => exact absurd rfl h
  | cons x rest =>
    obtain ⟨r, pre, post, h1, h2, h3, h4⟩ := selectBest_first_min rest x
    refine ⟨r, pre, post, ?_, h2, h3, h4⟩
    rw [selectBest, List.foldl_cons, show recordResult none x = some x from rfl]
    exact h1

/-- C5: with deterministic per-server probe outcomes and a non-empty
candidate list, `getBestServer` elects exactly one server: its mean ping is
a minimum over all measured candidates, and it is the first candidate in
lock-arrival order among those sharing that minimum (everything recorded
before it had a strictly larger mean). -/
theorem c5_best_server_first_min (lat : ℕ → ℕ → Option ℕ) (servers : List Server)
    (order : List ℕ) (hord : order.Perm (List.range servers.length))
    (hne : servers ≠ []) :
    ∃ b pre post,
      (getBestServerRun lat servers order).best = some b ∧
      (∀ s ∈ measuredServers lat servers, b.Ping ≤ s.Ping) ∧
      arrivalSeq lat servers order = pre ++ b :: post ∧
      (∀ s ∈ pre, b.Ping < s.Ping) := by
  have harr : (arrivalSeq lat servers order).Perm (measuredServers lat servers) :=
    hord.filterMap _
  have hlen : 0 < servers.length := List.length_pos.mpr hne
  have hmem : measureServer lat 0 servers[0] ∈ measuredServers lat servers := by
    refine List.mem_filterMap.mpr ⟨0, ?_, ?_⟩
    · exact List.mem_range.mpr hlen
    · rw [List.getElem?_eq_getElem hlen]
      rfl
  have hne2 : arrivalSeq lat servers order ≠ [] := by
    intro hA
    rw [hA] at harr
    exact List.ne_nil_of_mem hmem harr.nil_eq.symm
  obtain ⟨r, pre, post, h1, h2, h3, h4⟩ := selectBest_spec _ hne2
  refine ⟨r, pre, post, ?_, ?_, h2, h3⟩
  · rw [getBestServerRun, bestRun_best_eq]
    exact h1
  · intro s hs
    exact h4 s (harr.mem_iff.mpr hs)

/-- C5 witness: two servers, arrival order [1, 0]; server 0 answers probes
in 10 ms, server 1 in 20 ms. -/
theorem c5_witness :
    ∃ b pre post,
      (getBestServerRun latW [srvA, srvB] [1, 0]).best = some b ∧
      (∀ s ∈ measuredServers latW [srvA, srvB], b.Ping ≤ s.Ping) ∧
      arrivalSeq latW [srvA, srvB] [1, 0] = pre ++ b :: post ∧
      (∀ s ∈ pre, b.Ping < s.Ping) :=
  c5_best_server_first_min latW [srvA, srvB] [1, 0] (by decide) (by simp)

/-- C10: a `getBestServer` run never writes the input slice: every task
mutates only its own by-value copy, so after the run the slice is exactly
the input list (in particular each element's Ping is still its input zero),
and any elected best is a measured copy of some input element — the measured
ping travels only in the returned value. -/
theorem c10_input_slice_unchanged (lat : ℕ → ℕ → Option ℕ) (servers : List Server)
    (order : List ℕ) :
    (getBestServerRun lat servers order).slice = servers ∧
      ∀ b, (getBestServerRun lat servers order).best = some b →
        ∃ i sv, servers[i]? = some sv ∧ b = measureServer lat i sv := by
  constructor
  · exact bestRun_slice_eq lat order ⟨servers, none⟩
  · intro b hb
    rw [getBestServerRun, bestRun_best_eq] at hb
    have key : ∀ (l : List Server) (acc : Option Server),
        (∀ c, acc = some c → ∃ i sv, servers[i]? = some sv ∧ c = measureServer lat i sv) →
        (∀ c, c ∈ l → ∃ i sv, servers[i]? = some sv ∧ c = measureServer lat i sv) →
        ∀ c, l.foldl recordResult acc = some c →
          ∃ i sv, servers[i]? = some sv ∧ c = measureServer lat i sv := by
      intro l
      induction l with
      | nil => intro acc hacc _ c hc; exact hacc c hc
      | cons x xs ih =>
        intro acc hacc hl c hc
        rw [List.foldl_cons] at hc
        refine ih (recordResult acc x) ?_ (fun d hd => hl d (List.mem_cons_of_mem x hd)) c hc
        intro d hd
        cases acc with
        | none =>
          have : x = d := by simpa [recordResult] using hd
          exact this ▸ hl x (List.mem_cons_self x xs)
        | some b0 =>
          by_cases hpx : x.Ping < b0.Ping
          · have : x = d := by simpa [recordResult, hpx] using hd
            exact this ▸ hl x (List.mem_cons_self x xs)
          · have : b0 = d := by simpa [recordResult, hpx] using hd
            exact this ▸ hacc b0 rfl
    refine key _ none (by simp) ?_ b hb
    intro c hc
    obtain ⟨i, _, hsome⟩ := List.mem_filterMap.mp hc
    obtain ⟨sv, hsv, hm⟩ := Option.map_eq_some'.mp hsome
    exact ⟨i, sv, hsv, hm.symm⟩

/-- C10 witness: a single-server run leaves the slice untouched and carries
the measured ping only in the elected copy. -/
theorem c10_witness :
    (getBestServerRun latW [srvA] [0]).slice = [srvA] ∧
      ∃ i sv, ([srvA] : List Server)[i]? = some sv ∧
        measureServer latW 0 srvA = measureServer latW i sv :=
  ⟨(c10_input_slice_unchanged latW [srvA] [0]).1,
    (c10_input_slice_unchanged latW [srvA] [0]).2 (measureServer latW 0 srvA) rfl⟩

/-- C8: the claim says a body whose XML does not decode aborts the run as a
fatal error before ranking or measurement.  But `getConfig` discards the
decode error: on a non-XML body it continues with the zero-valued record
(whose client list is empty), and structurally it continues for every
decoder outcome — only a fetch error is fatal. -/
theorem c8_decode_error_not_fatal :
    getConfigRun (Except.ok "<html>service unavailable</html>") unmarshalGarbage =
        RunOutcome.next zeroConfig ∧
      (unmarshalGarbage "<html>service unavailable</html>").err = some "XML syntax error" ∧
      zeroConfig.Clients = [] ∧
      ∀ (body : String) (um : String → Unmarshalled Config),
        getConfigRun (Except.ok body) um = RunOutcome.next (um body).value :=
  ⟨rfl, rfl, rfl, fun _ _ => rfl⟩

end Speedtest
